import Mathlib

/-!
Shallow embedding of the ingestion pipeline of `src/pages/1_Demanda_CENACE.py`:
range batching, CENACE response parsing, per-batch fetching with disk cache,
series assembly, and the data-quality report.

Modelling conventions:
* `datetime` values are integers counting minutes (`timedelta(days=d)` is
  `d * 1440` minutes, `timedelta(hours=h)` is `h * 60` minutes).
* A pandas frame with columns `timestamp, demand_mw` is a `List Row`;
  a float `NaN` demand is `Option.none`.
* Python exceptions that escape a function are `Except` errors.
-/

namespace Cenace

/-- One row of the normalized series: columns `timestamp` and `demand_mw`.
A `none` demand models a float `NaN`. -/
structure Row where
  timestamp : Int
  demand_mw : Option ℚ
deriving DecidableEq, Repr

/-! ### RangeBatcher: `_date_range_batches`

The Python generator is a `while cur < end_dt` loop; we embed it with
explicit fuel (the loop, run with enough fuel, is the generator). -/

/-- Loop body of `_date_range_batches`: while `cur < end_dt`, yield
`(cur, min (cur + step) end_dt)` and continue from the right endpoint.
`step` is `timedelta(days=batch_days)` in minutes. -/
def batchesAux : Nat → Int → Int → Int → List (Int × Int)
  | 0, _, _, _ => []
  | fuel + 1, cur, end_dt, step =>
    if cur < end_dt then
      (cur, min (cur + step) end_dt) :: batchesAux fuel (min (cur + step) end_dt) end_dt step
    else []

/-- `_date_range_batches(start_dt, end_dt, batch_days)`: the full run of the
generator. `(end_dt - start_dt).toNat` steps of fuel always suffice when
`batch_days ≥ 1`, since every iteration advances `cur` by at least a minute. -/
def _date_range_batches (start_dt end_dt : Int) (batch_days : Int) : List (Int × Int) :=
  batchesAux (end_dt - start_dt).toNat start_dt end_dt (batch_days * 1440)

/-- The list of half-open intervals is an exact chain from `s` to `e`:
consecutive, nonempty, each at most `step` long, ending exactly at `e`. -/
def ChainCovers (step : Int) : Int → Int → List (Int × Int) → Prop
  | s, e, [] => e ≤ s
  | s, e, (a, b) :: rest => a = s ∧ a < b ∧ b ≤ e ∧ b - a ≤ step ∧ ChainCovers step b e rest

lemma batchesAux_chainCovers (step : Int) (hstep : 0 < step) :
    ∀ (fuel : Nat) (cur e : Int), (e - cur).toNat ≤ fuel →
      ChainCovers step cur e (batchesAux fuel cur e step) := by
  intro fuel
  induction fuel with
  | zero =>
    intro cur e hf
    simp only [batchesAux, ChainCovers]
    omega
  | succ f ih =>
    intro cur e hf
    by_cases hlt : cur < e
    · have hx : batchesAux (f + 1) cur e step =
          (cur, min (cur + step) e) :: batchesAux f (min (cur + step) e) e step := by
        simp [batchesAux, hlt]
      rw [hx]
      refine ⟨rfl, ?_, ?_, ?_, ?_⟩
      · omega
      · omega
      · omega
      · exact ih (min (cur + step) e) e (by omega)
    · have hx : batchesAux (f + 1) cur e step = [] := by
        simp [batchesAux, hlt]
      rw [hx]
      simp only [ChainCovers]
      omega

lemma chainCovers_mem_iff (step : Int) :
    ∀ (l : List (Int × Int)) (s e : Int), ChainCovers step s e l →
      ∀ x : Int, (∃ p ∈ l, p.1 ≤ x ∧ x < p.2) ↔ (s ≤ x ∧ x < e) := by
  intro l
  induction l with
  | nil =>
    intro s e hc x
    simp only [ChainCovers] at hc
    simp only [List.not_mem_nil]
    constructor
    · rintro ⟨p, hp, _⟩
      exact absurd hp (by simp)
    · intro hx
      omega
  | cons hd tl ih =>
    intro s e hc x
    obtain ⟨a, b⟩ := hd
    obtain ⟨ha, hab, hbe, _, hrest⟩ := hc
    subst ha
    have htl := ih b e hrest x
    constructor
    · rintro ⟨p, hp, hp1, hp2⟩
      rcases List.mem_cons.mp hp with h | h
      · subst h
        simp only at hp1 hp2
        omega
      · have := htl.mp ⟨p, h, hp1, hp2⟩
        omega
    · intro hx
      by_cases hb : x < b
      · exact ⟨(a, b), List.mem_cons_self _ _, by omega, by omega⟩
      · obtain ⟨p, hp, hps⟩ := htl.mpr (by omega)
        exact ⟨p, List.mem_cons_of_mem _ hp, hps⟩

lemma batchesAux_fuel_stable (step : Int) (hstep : 0 < step) :
    ∀ (f g : Nat) (cur e : Int), (e - cur).toNat ≤ f → (e - cur).toNat ≤ g →
      batchesAux f cur e step = batchesAux g cur e step := by
  intro f
  induction f with
  | zero =>
    intro g cur e hf hg
    have he : ¬ cur < e := by omega
    cases g with
    | zero => rfl
    | succ g => simp [batchesAux, he]
  | succ f ih =>
    intro g cur e hf hg
    by_cases hlt : cur < e
    · cases g with
      | zero => omega
      | succ g =>
        simp only [batchesAux, if_pos hlt]
        exact congrArg _ (ih g (min (cur + step) e) e (by omega) (by omega))
    · cases g with
      | zero => simp [batchesAux, hlt]
      | succ g => simp [batchesAux, hlt]

lemma batchesAux_length_le (step : Int) (hstep : 0 < step) :
    ∀ (fuel : Nat) (cur e : Int), (batchesAux fuel cur e step).length ≤ (e - cur).toNat := by
  intro fuel
  induction fuel with
  | zero =>
    intro cur e
    simp [batchesAux]
  | succ f ih =>
    intro cur e
    by_cases hlt : cur < e
    · simp only [batchesAux, if_pos hlt, List.length_cons]
      have := ih (min (cur + step) e) e
      omega
    · simp [batchesAux, hlt]

/-- C1: for every `start`, `end` and `max_batch_days ≥ 1`, the intervals of
`_date_range_batches` form an exact chain over `[start, end)`: contiguous
half-open intervals in chronological order, with no gaps and no overlaps,
each at most `max_batch_days` days long; pointwise they cover exactly
`[start, end)`; and when `start ≥ end` no interval is produced. -/
theorem date_range_batches_exact_cover (s e bd : Int) (hbd : 1 ≤ bd) :
    ChainCovers (bd * 1440) s e (_date_range_batches s e bd)
    ∧ (∀ x : Int, (∃ p ∈ _date_range_batches s e bd, p.1 ≤ x ∧ x < p.2) ↔ (s ≤ x ∧ x < e))
    ∧ (e ≤ s → _date_range_batches s e bd = []) := by
  have hstep : 0 < bd * 1440 := by positivity
  have hcov := batchesAux_chainCovers (bd * 1440) hstep (e - s).toNat s e (le_refl _)
  refine ⟨hcov, chainCovers_mem_iff _ _ s e hcov, ?_⟩
  intro hle
  have h0 : (e - s).toNat = 0 := by omega
  rw [_date_range_batches, h0]
  rfl

/-- C1 witness: concrete run with `start = 0`, `end = 2000` minutes,
`max_batch_days = 1`. -/
theorem date_range_batches_exact_cover_witness :
    (1 : Int) ≤ 1 ∧
      (ChainCovers (1 * 1440) 0 2000 (_date_range_batches 0 2000 1)
       ∧ (∀ x : Int, (∃ p ∈ _date_range_batches 0 2000 1, p.1 ≤ x ∧ x < p.2) ↔ (0 ≤ x ∧ x < 2000))
       ∧ ((2000 : Int) ≤ 0 → _date_range_batches 0 2000 1 = [])) :=
  ⟨le_refl 1, date_range_batches_exact_cover 0 2000 1 (le_refl 1)⟩

/-- C9: for `max_batch_days ≥ 1` the generator terminates after finitely many
yields: `(end - start).toNat` iterations of fuel are always enough (more fuel
never changes the output), and the number of intervals is bounded by the
length of the range in minutes. -/
theorem date_range_batches_terminates (s e bd : Int) (hbd : 1 ≤ bd) :
    (∀ fuel : Nat, (e - s).toNat ≤ fuel →
       batchesAux fuel s e (bd * 1440) = _date_range_batches s e bd)
    ∧ (_date_range_batches s e bd).length ≤ (e - s).toNat := by
  have hstep : 0 < bd * 1440 := by positivity
  constructor
  · intro fuel hf
    exact batchesAux_fuel_stable (bd * 1440) hstep fuel (e - s).toNat s e hf (le_refl _)
  · exact batchesAux_length_le (bd * 1440) hstep (e - s).toNat s e

/-- C9 witness: concrete run with `start = 0`, `end = 2000`, `max_batch_days = 1`. -/
theorem date_range_batches_terminates_witness :
    (1 : Int) ≤ 1 ∧
      ((∀ fuel : Nat, ((2000 : Int) - 0).toNat ≤ fuel →
          batchesAux fuel 0 2000 (1 * 1440) = _date_range_batches 0 2000 1)
       ∧ (_date_range_batches 0 2000 1).length ≤ ((2000 : Int) - 0).toNat) :=
  ⟨le_refl 1, date_range_batches_terminates 0 2000 1 (le_refl 1)⟩

/-! ### Python string coercions

Models of `int(str)`, `float(str)` and
`datetime.strptime(s, "%Y-%m-%d")` as used by `_parse_cenace_response`. -/

/-- Numeric value of a list of decimal digit characters. -/
def digitsVal (l : List Char) : Nat :=
  l.foldl (fun a c => a * 10 + (c.toNat - 48)) 0

/-- Whether every character is a decimal digit. -/
def allDigits (l : List Char) : Bool :=
  l.all (·.isDigit)

/-- Strip leading and trailing whitespace, as Python numeric coercions do. -/
def stripWs (l : List Char) : List Char :=
  ((l.dropWhile (·.isWhitespace)).reverse.dropWhile (·.isWhitespace)).reverse

/-- Model of Python `int(s)` for a string argument: optional surrounding
whitespace, optional sign, then a nonempty run of decimal digits.
(Digit-group underscores are not modelled.) -/
def pyIntOfString (s : String) : Option Int :=
  match stripWs s.data with
  | '+' :: rest => if rest ≠ [] ∧ allDigits rest then some (digitsVal rest : Int) else none
  | '-' :: rest => if rest ≠ [] ∧ allDigits rest then some (-(digitsVal rest : Int)) else none
  | l => if l ≠ [] ∧ allDigits l then some (digitsVal l : Int) else none

/-- Split an unsigned float literal at the exponent marker `e`/`E`, if any. -/
def splitAtExpChar (l : List Char) : List Char × Option (List Char) :=
  let m := l.takeWhile (fun c => !(c == 'e' || c == 'E'))
  match l.dropWhile (fun c => !(c == 'e' || c == 'E')) with
  | [] => (m, none)
  | _ :: rest => (m, some rest)

/-- Parse an unsigned decimal mantissa `digits [. digits]` with at least one
digit, as a rational. -/
def parseMantissa (l : List Char) : Option ℚ :=
  let ip := l.takeWhile (·.isDigit)
  match l.dropWhile (·.isDigit) with
  | [] => if ip ≠ [] then some (digitsVal ip : ℚ) else none
  | '.' :: fp =>
    if allDigits fp ∧ (ip ≠ [] ∨ fp ≠ []) then
      some ((digitsVal ip : ℚ) + (digitsVal fp : ℚ) / 10 ^ fp.length)
    else none
  | _ => none

/-- Parse a signed integer exponent (no surrounding whitespace). -/
def parseExpPart (l : List Char) : Option Int :=
  match l with
  | '+' :: rest => if rest ≠ [] ∧ allDigits rest then some (digitsVal rest : Int) else none
  | '-' :: rest => if rest ≠ [] ∧ allDigits rest then some (-(digitsVal rest : Int)) else none
  | _ => if l ≠ [] ∧ allDigits l then some (digitsVal l : Int) else none

/-- Unsigned core of Python `float(s)`: `nan` gives a NaN (`some none`);
otherwise mantissa and optional exponent give a rational. Infinite literals
are outside the rational model (no pipeline claim involves them). -/
def pyFloatCore (l : List Char) : Option (Option ℚ) :=
  let low := l.map Char.toLower
  if low = "nan".data then some none
  else if low = "inf".data ∨ low = "infinity".data then none
  else
    match splitAtExpChar l with
    | (m, none) => (parseMantissa m).map (fun q => some q)
    | (m, some ed) =>
      match parseMantissa m, parseExpPart ed with
      | some q, some k => some (some (q * (10 : ℚ) ^ k))
      | _, _ => none

/-- Model of Python `float(s)` for a string argument: `some none` is a float
`NaN`, `some (some q)` a finite value, `none` a `ValueError`. -/
def pyFloatOfString (s : String) : Option (Option ℚ) :=
  match stripWs s.data with
  | '+' :: rest => pyFloatCore rest
  | '-' :: rest => (pyFloatCore rest).map (fun v => v.map (fun q => -q))
  | l => pyFloatCore l

/-- Day count of a month in the proleptic Gregorian calendar. -/
def daysInMonth (y m : Nat) : Nat :=
  if m = 2 then (if (y % 4 = 0 ∧ y % 100 ≠ 0) ∨ y % 400 = 0 then 29 else 28)
  else if m = 4 ∨ m = 6 ∨ m = 9 ∨ m = 11 then 30 else 31

/-- Days since 0000-03-01 of a civil date (standard days-from-civil
computation); any fixed epoch works, only differences and order matter. -/
def daysFromCivil (y m d : Nat) : Nat :=
  let yy := if m ≤ 2 then y - 1 else y
  let era := yy / 400
  let yoe := yy % 400
  let mp := (m + 9) % 12
  let doy := (153 * mp + 2) / 5 + (d - 1)
  let doe := yoe * 365 + yoe / 4 - yoe / 100 + doy
  era * 146097 + doe

/-- Model of `datetime.strptime(s, "%Y-%m-%d")`, returning the midnight
timestamp in minutes: exactly four year digits, one or two month digits in
1..12, one or two day digits valid for the month, nothing left over, year at
least 1 (the `datetime` range check). -/
def strptimeYmd (s : String) : Option Int :=
  let l := s.data
  let yd := l.takeWhile (·.isDigit)
  if yd.length = 4 then
    match l.dropWhile (·.isDigit) with
    | '-' :: r2 =>
      let md := r2.takeWhile (·.isDigit)
      if md.length = 1 ∨ md.length = 2 then
        match r2.dropWhile (·.isDigit) with
        | '-' :: r4 =>
          let dd := r4.takeWhile (·.isDigit)
          if (dd.length = 1 ∨ dd.length = 2) ∧ r4.dropWhile (·.isDigit) = [] then
            let y := digitsVal yd
            let m := digitsVal md
            let d := digitsVal dd
            if 1 ≤ y ∧ 1 ≤ m ∧ m ≤ 12 ∧ 1 ≤ d ∧ d ≤ daysInMonth y m then
              some ((daysFromCivil y m d : Int) * 1440)
            else none
          else none
        | _ => none
      else none
    | _ => none
  else none

/-- Timestamp in minutes of a civil date plus a 0-based hour. -/
def mkTs (y m d h : Nat) : Int :=
  (daysFromCivil y m d : Int) * 1440 + h * 60

/-! ### ResponseNormalizer: `_parse_cenace_response`

The decoded JSON is modelled as far as the parser inspects it: a dict
(association list by key) whose values are record lists, each record
carrying the three fields the parser reads (absent fields are `none`;
present fields are JSON strings, as in the documented response shape). -/

/-- One record of the `Resultados` list, restricted to the fields the parser
reads: `fecha`, `hora`, `demanda`. -/
structure CRec where
  fecha : Option String
  hora : Option String
  demanda : Option String
deriving DecidableEq, Repr

/-- Exceptions `_parse_cenace_response` can raise: the missing-`Resultados`
`ValueError` (carrying the received key list), or the `ValueError` of
`int(r.get("hora", 1))`, which sits outside the per-record `try` block. -/
inductive ParseExc where
  | noResultados (keys : List String)
  | badHora (s : String)
deriving DecidableEq, Repr

/-- Model of `hora = int(r.get("hora", 1))`: a missing field defaults to the
Python int `1`; a present field is coerced with `int()`, whose failure is an
uncaught exception (it happens before the `try` block). -/
def parseRecordHora (r : CRec) : Except ParseExc Int :=
  match r.hora with
  | none => .ok 1
  | some s =>
    match pyIntOfString s with
    | some n => .ok n
    | none => .error (.badHora s)

/-- Model of the per-record `try` block: `strptime(fecha, "%Y-%m-%d")` plus
`timedelta(hours=hora - 1)` and `float(demanda)`; any failure drops the
record (`continue`). `r.get("fecha", "")` defaults a missing date to `""`
and `r.get("demanda", None)` makes `float(None)` fail. -/
def coerceRecord (hora : Int) (r : CRec) : Option Row :=
  match strptimeYmd (r.fecha.getD ""), r.demanda.bind pyFloatOfString with
  | some dmin, some mw => some ⟨dmin + (hora - 1) * 60, mw⟩
  | _, _ => none

/-- The record loop of `_parse_cenace_response`: rows of successfully coerced
records in order, with a bad `hora` raising out of the whole loop (the first
such record aborts the iteration, as the uncaught exception does). -/
def collectRows : List CRec → Except ParseExc (List Row)
  | [] => .ok []
  | r :: rest =>
    match parseRecordHora r with
    | .error e => .error e
    | .ok h =>
      match collectRows rest with
      | .error e => .error e
      | .ok ps =>
        match coerceRecord h r with
        | some p => .ok (p :: ps)
        | none => .ok ps

/-- Column order used by `sort_values("timestamp")`. -/
def rowLE (p q : Row) : Prop :=
  p.timestamp ≤ q.timestamp

instance : DecidableRel rowLE :=
  fun p q => inferInstanceAs (Decidable (p.timestamp ≤ q.timestamp))

instance : IsTotal Row rowLE :=
  ⟨fun p q => Int.le_total p.timestamp q.timestamp⟩

instance : IsTrans Row rowLE :=
  ⟨fun _ _ _ h1 h2 => le_trans h1 h2⟩

/-- Model of `df.sort_values("timestamp")` on the row list. -/
def sortByTimestamp (l : List Row) : List Row :=
  l.insertionSort rowLE

/-- Model of `_parse_cenace_response`: require the `Resultados` key (else a
`ValueError` with the received keys), coerce each record (a bad `hora`
raises), and sort the surviving rows by timestamp. Empty record list or no
surviving row gives the empty frame. -/
def _parse_cenace_response (data : List (String × List CRec)) : Except ParseExc (List Row) :=
  match data.lookup "Resultados" with
  | none => .error (.noResultados (data.map Prod.fst))
  | some resultados =>
    if resultados.isEmpty then .ok []
    else
      match collectRows resultados with
      | .error e => .error e
      | .ok rows =>
        if rows.isEmpty then .ok []
        else .ok (sortByTimestamp rows)

/-! ### Fetcher: `fetch_cenace`

The process-external world of one call is an explicit environment: the disk
cache state for the requested key and the outcome of each `requests.get`
attempt. `st.error` / `st.json` diagnostics are collected as values. -/

/-- Outcome of one `requests.get` call. `response` carries the status code
and the decoded JSON body (`none` when `r.json()` raises). -/
inductive ReqOutcome where
  | sslError
  | timeoutError
  | connError
  | response (status : Nat) (body : Option (List (String × List CRec)))
deriving DecidableEq, Repr

/-- Cache state for the requested `(system, start, end)` key: `none` when the
file does not exist, `some none` when it exists but reading raises,
`some (some s)` when it reads back the series `s`. -/
def CacheState : Type :=
  Option (Option (List Row))

/-- Environment of one `fetch_cenace` call. `attempt2` is consulted only
when `attempt1` raises `SSLError` (the `verify=False` retry). -/
structure FetchEnv where
  cache : Option (Option (List Row))
  attempt1 : ReqOutcome
  attempt2 : ReqOutcome
deriving DecidableEq, Repr

/-- Diagnostics surfaced through `st.error` / `st.json`. -/
inductive Diag where
  | statusError (code : Nat)
  | jsonError
  | parseError
deriving DecidableEq, Repr

/-- Python exceptions escaping `fetch_cenace` (uncaught `requests`
exceptions: anything other than `SSLError` on the first attempt, and any
exception on the retry). -/
inductive PyExc where
  | requestExc
deriving DecidableEq, Repr

/-- Result of a completed `fetch_cenace` call: the returned frame, the series
written to the cache (if the write was attempted), and the diagnostics. -/
structure FetchResult where
  series : List Row
  cachePut : Option (List Row)
  diags : List Diag
deriving DecidableEq, Repr

/-- Model of `fetch_cenace`: return a readable cache entry verbatim;
otherwise perform the request (catching only `SSLError`, retried once with
`verify=False`); non-200 status, undecodable JSON and parse failure each
degrade to an empty frame with a diagnostic; on success filter to
`start_dt ≤ timestamp < end_dt` and write that filtered frame to the cache
before returning it. -/
def fetch_cenace (env : FetchEnv) (start_dt end_dt : Int) : Except PyExc FetchResult :=
  match env.cache with
  | some (some s) => .ok ⟨s, none, []⟩
  | _ =>
    let outcome :=
      match env.attempt1 with
      | .sslError => env.attempt2
      | o => o
    match outcome with
    | .response status body =>
      if status ≠ 200 then .ok ⟨[], none, [.statusError status]⟩
      else
        match body with
        | none => .ok ⟨[], none, [.jsonError]⟩
        | some data =>
          match _parse_cenace_response data with
          | .error _ => .ok ⟨[], none, [.parseError]⟩
          | .ok df =>
            let filtered :=
              df.filter (fun p => decide (start_dt ≤ p.timestamp) && decide (p.timestamp < end_dt))
            .ok ⟨filtered, some filtered, []⟩
    | _ => .error .requestExc

/-! ### SeriesAssembler: `load_demand` -/

/-- Model of `drop_duplicates(subset=["timestamp"])` (keep the first
occurrence of each timestamp); `seen` is the set of already kept keys. -/
def dedupByTimestamp : List Row → List Int → List Row
  | [], _ => []
  | p :: ps, seen =>
    if p.timestamp ∈ seen then dedupByTimestamp ps seen
    else p :: dedupByTimestamp ps (p.timestamp :: seen)

/-- Model of `load_demand` over an arbitrary per-batch fetch outcome: keep
the non-empty batch frames, concatenate, deduplicate by timestamp and sort.
No batch or all-empty batches give the empty (well-typed) frame. -/
def load_demand (fetch : Int → Int → List Row) (start_dt end_dt batch_days : Int) : List Row :=
  let parts :=
    ((_date_range_batches start_dt end_dt batch_days).map (fun ab => fetch ab.1 ab.2)).filter
      (fun df => !df.isEmpty)
  if parts.isEmpty then []
  else sortByTimestamp (dedupByTimestamp parts.flatten [])

/-! ### QualityAnalyzer: `quality_report` -/

/-- The report record; `none` fields are the JSON nulls of the empty-series
case. -/
structure QualityReport where
  rows : Nat
  nan_values : Option Nat
  negatives : Option Nat
  duplicates : Option Nat
  time_gaps : Option Nat
deriving DecidableEq, Repr

/-- Model of `df["timestamp"].duplicated().sum()`: each element equal to some
earlier element counts once; `seen` is the set of values already passed. -/
def countDupAux : List Int → List Int → Nat
  | [], _ => 0
  | t :: rest, seen =>
    if t ∈ seen then 1 + countDupAux rest seen
    else countDupAux rest (t :: seen)

/-- Model of counting `diff()` deltas strictly above `Timedelta(minutes=65)`
over consecutive timestamps. -/
def countGaps : List Int → Nat
  | t1 :: t2 :: rest => (if 65 < t2 - t1 then 1 else 0) + countGaps (t2 :: rest)
  | _ => 0

/-- Whether a demand value is negative; pandas `NaN < 0` is false. -/
def isNegative (p : Row) : Bool :=
  match p.demand_mw with
  | some v => decide (v < 0)
  | none => false

/-- Model of `quality_report`: nulls for the empty frame, else the row count,
`isna` count, negative count, duplicated-timestamp count and gap count. -/
def quality_report (df : List Row) : QualityReport :=
  if df.isEmpty then ⟨0, none, none, none, none⟩
  else
    ⟨df.length,
     some (df.countP (fun p => p.demand_mw.isNone)),
     some (df.countP isNegative),
     some (countDupAux (df.map (·.timestamp)) []),
     some (countGaps (df.map (·.timestamp)))⟩

/-! ### Lemmas about the quality analyzer -/

lemma countGaps_eq_zip : ∀ l : List Int,
    countGaps l = ((l.zip l.tail).filter (fun ab => decide (65 < ab.2 - ab.1))).length := by
  intro l
  induction l with
  | nil => rfl
  | cons t1 ls ih =>
    cases ls with
    | nil => rfl
    | cons t2 rest =>
      rw [List.tail_cons, List.zip_cons_cons]
      by_cases h : 65 < t2 - t1
      · show (if 65 < t2 - t1 then 1 else 0) + countGaps (t2 :: rest) = _
        rw [if_pos h, List.filter_cons_of_pos (by simpa using h), List.length_cons, ih,
            List.tail_cons]
        omega
      · show (if 65 < t2 - t1 then 1 else 0) + countGaps (t2 :: rest) = _
        rw [if_neg h, List.filter_cons_of_neg (by simpa using h), ih, List.tail_cons]
        omega

lemma filter_length_drop_one {t : Int} : ∀ {L : List Int} {seen : List Int},
    L.Nodup → t ∈ L → t ∉ seen →
    (L.filter (fun x => decide (x ∉ seen))).length =
      1 + (L.filter (fun x => decide (x ∉ t :: seen))).length := by
  intro L
  induction L with
  | nil => intro seen _ ht _; cases ht
  | cons a L ih =>
    intro seen hnd ht hts
    by_cases hta : t = a
    · subst hta
      have htL : t ∉ L := (List.nodup_cons.mp hnd).1
      have hagree : ∀ x ∈ L, (decide (x ∉ seen)) = (decide (x ∉ t :: seen)) := by
        intro x hx
        have hxt : x ≠ t := fun hxa => htL (hxa ▸ hx)
        simp [List.mem_cons, hxt]
      rw [List.filter_cons_of_pos (by simpa using hts),
          List.filter_cons_of_neg (by simp),
          List.filter_congr hagree, List.length_cons]
      omega
    · have haL : t ∈ L := (List.mem_cons.mp ht).resolve_left hta
      have hnd2 : L.Nodup := (List.nodup_cons.mp hnd).2
      have hat : a ≠ t := fun hae => hta hae.symm
      by_cases has : a ∈ seen
      · rw [List.filter_cons_of_neg (by simpa using has),
            List.filter_cons_of_neg (by simp [List.mem_cons, has])]
        exact ih hnd2 haL hts
      · rw [List.filter_cons_of_pos (by simpa using has),
            List.filter_cons_of_pos (by simp [List.mem_cons]; exact ⟨hat, has⟩),
            List.length_cons, List.length_cons, ih hnd2 haL hts]
        omega

lemma countDupAux_add_distinct : ∀ (l seen : List Int),
    countDupAux l seen + (l.dedup.filter (fun x => decide (x ∉ seen))).length = l.length := by
  intro l
  induction l with
  | nil => intro seen; simp [countDupAux]
  | cons t rest ih =>
    intro seen
    by_cases hts : t ∈ seen
    · rw [countDupAux, if_pos hts]
      by_cases htr : t ∈ rest
      · rw [List.dedup_cons_of_mem htr, List.length_cons]
        have := ih seen
        omega
      · rw [List.dedup_cons_of_not_mem htr,
            List.filter_cons_of_neg (by simpa using hts), List.length_cons]
        have := ih seen
        omega
    · rw [countDupAux, if_neg hts, List.length_cons]
      by_cases htr : t ∈ rest
      · rw [List.dedup_cons_of_mem htr]
        have hkey := filter_length_drop_one (List.nodup_dedup rest)
          (List.mem_dedup.mpr htr) hts
        have := ih (t :: seen)
        omega
      · rw [List.dedup_cons_of_not_mem htr,
            List.filter_cons_of_pos (by simpa using hts)]
        have hagree : ∀ x ∈ rest.dedup, (decide (x ∉ seen)) = (decide (x ∉ t :: seen)) := by
          intro x hx
          have hxt : x ≠ t := fun hxe => htr (List.mem_dedup.mp (hxe ▸ hx))
          simp [List.mem_cons, hxt]
        rw [List.filter_congr hagree, List.length_cons]
        have := ih (t :: seen)
        omega

lemma isNegative_eq_any :
    isNegative = fun p : Row => p.demand_mw.any (fun v => decide (v < 0)) := by
  funext p
  obtain ⟨ts, mw⟩ := p
  cases mw <;> rfl

/-- C3: the quality analyzer returns `rows = 0` and null counters on the
empty series; on a non-empty series it returns the row count, the count of
missing demand values, the count of negative demands, the count of
timestamps repeating an earlier one (length minus number of distinct
timestamps), and the count of consecutive-timestamp deltas strictly above
65 minutes; a pair of timestamps 3 hours apart gives `time_gaps = 1` and a
repeated timestamp gives `duplicates = 1`. -/
theorem quality_report_spec :
    quality_report [] = ⟨0, none, none, none, none⟩
    ∧ (∀ df : List Row, df ≠ [] →
        quality_report df =
          ⟨df.length,
           some ((df.filter (fun p => p.demand_mw.isNone)).length),
           some ((df.filter (fun p => p.demand_mw.any (fun v => decide (v < 0)))).length),
           some (df.length - ((df.map (·.timestamp)).dedup).length),
           some ((((df.map (·.timestamp)).zip ((df.map (·.timestamp)).tail)).filter
                    (fun ab => decide (65 < ab.2 - ab.1))).length)⟩)
    ∧ quality_report [⟨0, some 100⟩, ⟨180, some 90⟩] = ⟨2, some 0, some 0, some 0, some 1⟩
    ∧ quality_report [⟨0, some 100⟩, ⟨0, some 90⟩] = ⟨2, some 0, some 0, some 1, some 0⟩ := by
  refine ⟨rfl, ?_, by with_unfolding_all rfl, by with_unfolding_all rfl⟩
  intro df hdf
  have hne : df.isEmpty = false := by
    cases df with
    | nil => exact absurd rfl hdf
    | cons a l => rfl
  rw [quality_report, hne]
  simp only [Bool.false_eq_true, if_false, QualityReport.mk.injEq, true_and]
  refine ⟨?_, ?_, ?_, ?_⟩
  · rw [List.countP_eq_length_filter]
  · rw [isNegative_eq_any, List.countP_eq_length_filter]
  · refine congrArg some ?_
    have hadd := countDupAux_add_distinct (df.map (·.timestamp)) []
    have hfil : ((df.map (·.timestamp)).dedup.filter
        (fun x => decide (x ∉ ([] : List Int)))) = (df.map (·.timestamp)).dedup := by
      simp
    rw [hfil] at hadd
    have hlen : (df.map (·.timestamp)).length = df.length := List.length_map _ _
    omega
  · rw [countGaps_eq_zip]

/-- C3 witness: the non-empty branch applied to a concrete one-row series. -/
theorem quality_report_spec_witness :
    ([⟨0, some 100⟩] : List Row) ≠ []
    ∧ quality_report [⟨0, some 100⟩] =
        ⟨([⟨0, some 100⟩] : List Row).length,
         some ((([⟨0, some 100⟩] : List Row).filter (fun p => p.demand_mw.isNone)).length),
         some ((([⟨0, some 100⟩] : List Row).filter
                  (fun p => p.demand_mw.any (fun v => decide (v < 0)))).length),
         some (([⟨0, some 100⟩] : List Row).length -
                 ((([⟨0, some 100⟩] : List Row).map (·.timestamp)).dedup).length),
         some ((((([⟨0, some 100⟩] : List Row).map (·.timestamp)).zip
                    ((([⟨0, some 100⟩] : List Row).map (·.timestamp)).tail)).filter
                  (fun ab => decide (65 < ab.2 - ab.1))).length)⟩ :=
  ⟨by simp, quality_report_spec.2.1 [⟨0, some 100⟩] (by simp)⟩

/-! ### Lemmas about the assembler -/

lemma dedupByTimestamp_nodup : ∀ (l : List Row) (seen : List Int),
    ((dedupByTimestamp l seen).map (·.timestamp)).Nodup
    ∧ ∀ t ∈ (dedupByTimestamp l seen).map (·.timestamp), t ∉ seen := by
  intro l
  induction l with
  | nil => intro seen; simp [dedupByTimestamp]
  | cons p ps ih =>
    intro seen
    by_cases h : p.timestamp ∈ seen
    · rw [dedupByTimestamp, if_pos h]
      exact ih seen
    · rw [dedupByTimestamp, if_neg h]
      obtain ⟨ihn, ihs⟩ := ih (p.timestamp :: seen)
      refine ⟨?_, ?_⟩
      · rw [List.map_cons, List.nodup_cons]
        refine ⟨fun hmem => ?_, ihn⟩
        exact (ihs _ hmem) (List.mem_cons_self _ _)
      · intro t ht
        rw [List.map_cons, List.mem_cons] at ht
        rcases ht with rfl | ht
        · exact h
        · exact fun hts => (ihs t ht) (List.mem_cons_of_mem _ hts)

lemma sortByTimestamp_pairwise_lt (l : List Row)
    (hn : (l.map (·.timestamp)).Nodup) :
    (sortByTimestamp l).Pairwise (fun p q => p.timestamp < q.timestamp) := by
  have hperm : List.Perm (sortByTimestamp l) l := List.perm_insertionSort rowLE l
  have hn2 : ((sortByTimestamp l).map (·.timestamp)).Nodup :=
    ((hperm.map (·.timestamp)).nodup_iff).mpr hn
  have hs : (sortByTimestamp l).Pairwise rowLE := List.sorted_insertionSort rowLE l
  have hne : (sortByTimestamp l).Pairwise (fun p q => p.timestamp ≠ q.timestamp) :=
    List.pairwise_map.mp hn2
  exact (hs.and hne).imp (fun h => lt_of_le_of_ne h.1 h.2)

/-- C2: whatever the batch bounds and the per-batch fetch results, the
assembled series has unique, strictly increasing timestamps; and when no
batch contributes data (no batches at all, or every batch producing the
empty frame) the result is the empty well-typed frame. -/
theorem load_demand_spec (fetch : Int → Int → List Row) (s e bd : Int) :
    (load_demand fetch s e bd).Pairwise (fun p q => p.timestamp < q.timestamp)
    ∧ ((∀ a b, (a, b) ∈ _date_range_batches s e bd → fetch a b = []) →
        load_demand fetch s e bd = []) := by
  constructor
  · rw [load_demand]
    by_cases hp :
        (((_date_range_batches s e bd).map (fun ab => fetch ab.1 ab.2)).filter
          (fun df => !df.isEmpty)).isEmpty
    · simp only [hp, if_true]
      exact List.Pairwise.nil
    · simp only [hp, Bool.false_eq_true, if_false]
      exact sortByTimestamp_pairwise_lt _ (dedupByTimestamp_nodup _ []).1
  · intro hall
    rw [load_demand]
    have hmap : ∀ df ∈ (_date_range_batches s e bd).map (fun ab => fetch ab.1 ab.2),
        df = [] := by
      intro df hdf
      obtain ⟨ab, hab, rfl⟩ := List.mem_map.mp hdf
      exact hall ab.1 ab.2 (by simpa using hab)
    have hfil : (((_date_range_batches s e bd).map (fun ab => fetch ab.1 ab.2)).filter
        (fun df => !df.isEmpty)) = [] := by
      rw [List.filter_eq_nil_iff]
      intro df hdf
      rw [hmap df hdf]
      simp
    rw [hfil]
    simp

/-- C2 witness: the all-empty case at a concrete fetch function and range. -/
theorem load_demand_spec_witness :
    (∀ a b : Int, (a, b) ∈ _date_range_batches 0 2000 1 → (fun _ _ : Int => ([] : List Row)) a b = [])
    ∧ load_demand (fun _ _ : Int => ([] : List Row)) 0 2000 1 = [] :=
  ⟨fun _ _ _ => rfl, (load_demand_spec (fun _ _ => []) 0 2000 1).2 (fun _ _ _ => rfl)⟩

/-! ### Lemmas about the response normalizer -/

lemma parseRecordHora_error_shape (r : CRec) (e : ParseExc)
    (h : parseRecordHora r = .error e) : ∃ s, e = .badHora s := by
  cases hr : r.hora with
  | none =>
    simp only [parseRecordHora, hr] at h
    exact Except.noConfusion h
  | some s =>
    cases hp : pyIntOfString s with
    | none =>
      simp only [parseRecordHora, hr, hp] at h
      injection h with h2
      exact ⟨s, h2.symm⟩
    | some n =>
      simp only [parseRecordHora, hr, hp] at h
      exact Except.noConfusion h

lemma collectRows_error_shape : ∀ (l : List CRec) (exc : ParseExc),
    collectRows l = .error exc → ∃ s, exc = .badHora s := by
  intro l
  induction l with
  | nil =>
    intro exc h
    simp only [collectRows] at h
    exact Except.noConfusion h
  | cons r rest ih =>
    intro exc h
    cases hh : parseRecordHora r with
    | error e =>
      simp only [collectRows, hh] at h
      injection h with h2
      exact h2 ▸ parseRecordHora_error_shape r e hh
    | ok hv =>
      cases hcr : collectRows rest with
      | error e2 =>
        simp only [collectRows, hh, hcr] at h
        injection h with h2
        exact h2 ▸ ih e2 hcr
      | ok ps =>
        cases hco : coerceRecord hv r with
        | none =>
          simp only [collectRows, hh, hcr, hco] at h
          exact Except.noConfusion h
        | some p =>
          simp only [collectRows, hh, hcr, hco] at h
          exact Except.noConfusion h

lemma parse_ok_sorted (data : List (String × List CRec)) (rows : List Row)
    (h : _parse_cenace_response data = .ok rows) : rows.Pairwise rowLE := by
  cases hl : data.lookup "Resultados" with
  | none =>
    simp only [_parse_cenace_response, hl] at h
    exact Except.noConfusion h
  | some res =>
    by_cases hres : res.isEmpty
    · simp only [_parse_cenace_response, hl, hres, if_true] at h
      injection h with h2
      subst h2
      exact List.Pairwise.nil
    · cases hcr : collectRows res with
      | error e =>
        simp only [_parse_cenace_response, hl, hres, Bool.false_eq_true, if_false, hcr] at h
        exact Except.noConfusion h
      | ok rows0 =>
        by_cases h0 : rows0.isEmpty
        · simp only [_parse_cenace_response, hl, hres, Bool.false_eq_true, if_false, hcr, h0,
            if_true] at h
          injection h with h2
          subst h2
          exact List.Pairwise.nil
        · simp only [_parse_cenace_response, hl, hres, Bool.false_eq_true, if_false, hcr, h0] at h
          injection h with h2
          subst h2
          exact List.sorted_insertionSort rowLE rows0

lemma parse_error_shape (data : List (String × List CRec)) (exc : ParseExc)
    (h : _parse_cenace_response data = .error exc) :
    (data.lookup "Resultados" = none ∧ exc = .noResultados (data.map Prod.fst))
    ∨ ∃ s, exc = .badHora s := by
  cases hl : data.lookup "Resultados" with
  | none =>
    simp only [_parse_cenace_response, hl] at h
    injection h with h2
    exact Or.inl ⟨rfl, h2.symm⟩
  | some res =>
    by_cases hres : res.isEmpty
    · simp only [_parse_cenace_response, hl, hres, if_true] at h
      exact Except.noConfusion h
    · cases hcr : collectRows res with
      | error e =>
        simp only [_parse_cenace_response, hl, hres, Bool.false_eq_true, if_false, hcr] at h
        injection h with h2
        exact Or.inr (h2 ▸ collectRows_error_shape res e hcr)
      | ok rows0 =>
        by_cases h0 : rows0.isEmpty
        · simp only [_parse_cenace_response, hl, hres, Bool.false_eq_true, if_false, hcr, h0,
            if_true] at h
          exact Except.noConfusion h
        · simp only [_parse_cenace_response, hl, hres, Bool.false_eq_true, if_false, hcr,
            h0] at h
          exact Except.noConfusion h

/-- C5: on the documented two-record `Resultados` payload the normalizer
produces exactly the points `(2025-01-01T00:00, 100.0)` and
`(2025-01-01T23:00, 90.0)`; in general a record with date and 1-indexed hour
fields is emitted with timestamp `date + (hour - 1) hours`, and any
successfully parsed output is chronologically sorted. -/
theorem parse_cenace_response_spec :
    _parse_cenace_response
        [("Resultados",
          [⟨some "2025-01-01", some "1", some "100.0"⟩,
           ⟨some "2025-01-01", some "24", some "90.0"⟩])] =
      .ok [⟨mkTs 2025 1 1 0, some 100⟩, ⟨mkTs 2025 1 1 23, some 90⟩]
    ∧ (∀ (r : CRec) (hs : String) (n dmin : Int) (mw : Option ℚ),
        r.hora = some hs → pyIntOfString hs = some n →
        strptimeYmd (r.fecha.getD "") = some dmin →
        r.demanda.bind pyFloatOfString = some mw →
        collectRows [r] = .ok [⟨dmin + (n - 1) * 60, mw⟩])
    ∧ (∀ (data : List (String × List CRec)) (rows : List Row),
        _parse_cenace_response data = .ok rows → rows.Pairwise rowLE) := by
  refine ⟨by with_unfolding_all rfl, ?_, parse_ok_sorted⟩
  intro r hs n dmin mw hh hp hf hd
  simp only [collectRows, parseRecordHora, hh, hp, coerceRecord, hf, hd]

/-- C5 witness: the general hour-offset clause at a concrete record. -/
theorem parse_cenace_response_spec_witness :
    collectRows [⟨some "2025-01-01", some "2", some "90.0"⟩] =
      .ok [⟨(daysFromCivil 2025 1 1 : Int) * 1440 + (2 - 1) * 60, some 90⟩] :=
  parse_cenace_response_spec.2.1 ⟨some "2025-01-01", some "2", some "90.0"⟩ "2" 2
    ((daysFromCivil 2025 1 1 : Int) * 1440) (some 90) rfl rfl rfl
    (by with_unfolding_all rfl)

/-- C10: a `Resultados` record with a parseable date and numeric demand but
no `hora` field at all is not dropped: the hour silently defaults to 1 and
the point lands at midnight of that date. -/
theorem parse_missing_hora_defaults_midnight (r : CRec) (dmin : Int) (mw : Option ℚ)
    (hh : r.hora = none)
    (hf : strptimeYmd (r.fecha.getD "") = some dmin)
    (hd : r.demanda.bind pyFloatOfString = some mw) :
    _parse_cenace_response [("Resultados", [r])] = .ok [⟨dmin, mw⟩] := by
  have hlk : ([("Resultados", [r])] : List (String × List CRec)).lookup "Resultados" =
      some [r] := rfl
  have hcoerce : coerceRecord 1 r = some ⟨dmin, mw⟩ := by
    simp only [coerceRecord, hf, hd]
    norm_num
  have hcr : collectRows [r] = .ok [(⟨dmin, mw⟩ : Row)] := by
    simp only [collectRows, parseRecordHora, hh, hcoerce]
  simp only [_parse_cenace_response, hlk, List.isEmpty_cons, Bool.false_eq_true, if_false, hcr]
  rfl

/-- C10 witness: a concrete record with the `hora` field absent. -/
theorem parse_missing_hora_defaults_midnight_witness :
    (⟨some "2025-01-01", none, some "100.0"⟩ : CRec).hora = none
    ∧ _parse_cenace_response [("Resultados", [⟨some "2025-01-01", none, some "100.0"⟩])] =
        .ok [⟨(daysFromCivil 2025 1 1 : Int) * 1440, some 100⟩] :=
  ⟨rfl, parse_missing_hora_defaults_midnight ⟨some "2025-01-01", none, some "100.0"⟩
    ((daysFromCivil 2025 1 1 : Int) * 1440) (some 100) rfl rfl
    (by with_unfolding_all rfl)⟩

/-- C6: evaluation of the record-drop behavior. A malformed demand value is
dropped on its own, as the claim says (three records, one bad demand, two
points); but a record whose `hora` is not numeric raises the uncaught
`int()` `ValueError` — the coercion sits before the `try` block — aborting
the whole batch instead of dropping that record, contradicting the code's
own skip-bad-records comment and the claim. -/
theorem parse_record_drop_and_hora_abort :
    _parse_cenace_response
        [("Resultados",
          [⟨some "2025-01-01", some "1", some "100.0"⟩,
           ⟨some "2025-01-01", some "2", some "abc"⟩,
           ⟨some "2025-01-01", some "3", some "95.5"⟩])] =
      .ok [⟨mkTs 2025 1 1 0, some 100⟩, ⟨mkTs 2025 1 1 2, some (191 / 2)⟩]
    ∧ _parse_cenace_response
        [("Resultados",
          [⟨some "2025-01-01", some "1", some "100.0"⟩,
           ⟨some "2025-01-01", some "x", some "90.0"⟩,
           ⟨some "2025-01-01", some "3", some "95.5"⟩])] =
      .error (.badHora "x") :=
  ⟨by with_unfolding_all rfl, by with_unfolding_all rfl⟩

/-- C8 counterexample: the ASP.NET-style `d` envelope, though it carries a
perfectly plausible record, is not unwrapped — the parser raises the
missing-`Resultados` error instead, so the claimed envelope tolerance fails
on the code. -/
theorem parse_d_envelope_rejected :
    _parse_cenace_response [("d", [⟨some "2025-01-01", some "1", some "100.0"⟩])] =
      .error (.noResultados ["d"]) := by
  with_unfolding_all rfl

/-- C8 amended: the normalizer accepts only the `Resultados` envelope — it
fails with the missing-key error (carrying the received key list) exactly
when that key is absent — and the failure is surfaced by the fetcher as a
diagnostic with an empty batch rather than swallowed. -/
theorem parse_envelope_only_resultados (data : List (String × List CRec)) :
    (data.lookup "Resultados" = none ↔
      _parse_cenace_response data = .error (.noResultados (data.map Prod.fst)))
    ∧ (∀ (env : FetchEnv) (a b : Int) (exc : ParseExc),
        env.cache = none →
        env.attempt1 = .response 200 (some data) →
        _parse_cenace_response data = .error exc →
        fetch_cenace env a b = .ok ⟨[], none, [.parseError]⟩) := by
  constructor
  · constructor
    · intro hl
      rw [_parse_cenace_response, hl]
    · intro h
      rcases parse_error_shape data _ h with ⟨hl, _⟩ | ⟨s, hs⟩
      · exact hl
      · exact absurd hs (by simp)
  · intro env a b exc hc h1 hperr
    simp only [fetch_cenace, hc, h1, hperr]
    norm_num

/-- C8 witness: the amended behavior at a concrete `d`-keyed payload. -/
theorem parse_envelope_only_resultados_witness :
    fetch_cenace ⟨none, .response 200 (some [("d", [])]), .sslError⟩ 0 1440 =
      .ok ⟨[], none, [.parseError]⟩ :=
  (parse_envelope_only_resultados [("d", [])]).2
    ⟨none, .response 200 (some [("d", [])]), .sslError⟩ 0 1440
    (.noResultados ["d"]) rfl rfl rfl

/-! ### Fetcher error handling and caching -/

/-- C4 counterexample: a timeout on the first request attempt is not caught
(only `requests.exceptions.SSLError` is), so the exception escapes
`fetch_cenace` and aborts the multi-batch assembly, contradicting the claim
that every transport failure degrades to an empty batch. -/
theorem fetch_timeout_uncaught :
    fetch_cenace ⟨none, .timeoutError, .timeoutError⟩ 0 1440 = .error .requestExc := rfl

/-- C4 amended: a non-200 status, an undecodable JSON body and an unparsable
payload each degrade the batch to an empty series with a diagnostic, without
raising; an `SSLError` on the first attempt is retried exactly once with
relaxed certificate verification (the call behaves as the second attempt);
but a timeout or connection-level failure — on either attempt — raises and
aborts the assembly. -/
theorem fetch_error_handling (env : FetchEnv) (a b : Int) (hc : env.cache = none) :
    (∀ (st : Nat) (body : Option (List (String × List CRec))),
       env.attempt1 = .response st body → st ≠ 200 →
       fetch_cenace env a b = .ok ⟨[], none, [.statusError st]⟩)
    ∧ (env.attempt1 = .response 200 none →
       fetch_cenace env a b = .ok ⟨[], none, [.jsonError]⟩)
    ∧ (∀ (data : List (String × List CRec)) (exc : ParseExc),
       env.attempt1 = .response 200 (some data) →
       _parse_cenace_response data = .error exc →
       fetch_cenace env a b = .ok ⟨[], none, [.parseError]⟩)
    ∧ (env.attempt1 = .sslError →
       fetch_cenace env a b = fetch_cenace ⟨none, env.attempt2, env.attempt2⟩ a b)
    ∧ (env.attempt1 = .timeoutError ∨ env.attempt1 = .connError →
       fetch_cenace env a b = .error .requestExc) := by
  refine ⟨?_, ?_, ?_, ?_, ?_⟩
  · intro st body h1 hst
    simp only [fetch_cenace, hc, h1, if_pos hst]
  · intro h1
    simp only [fetch_cenace, hc, h1]
    norm_num
  · intro data exc h1 hperr
    simp only [fetch_cenace, hc, h1, hperr]
    norm_num
  · intro h1
    cases h2 : env.attempt2 <;> simp [fetch_cenace, hc, h1, h2]
  · intro h1
    rcases h1 with h1 | h1 <;> simp [fetch_cenace, hc, h1]

/-- C4 amended witness: a concrete 500-status response degrades to the empty
batch with its diagnostic. -/
theorem fetch_error_handling_witness :
    fetch_cenace ⟨none, .response 500 none, .response 500 none⟩ 0 1440 =
      .ok ⟨[], none, [.statusError 500]⟩ :=
  (fetch_error_handling ⟨none, .response 500 none, .response 500 none⟩ 0 1440 rfl).1
    500 none rfl (by decide)

/-- C7: a readable cache entry for the exact key is returned verbatim, with
no re-validation, no diagnostics and no cache write; with no cache entry and
a successful, parsable 200 response, the parsed series is filtered to
`[range_start, range_end)` — every returned timestamp lies in the window —
and exactly that filtered series is persisted to the cache and returned. -/
theorem fetch_cache_hit_and_window (env : FetchEnv) (a b : Int) :
    (∀ s : List Row, env.cache = some (some s) → fetch_cenace env a b = .ok ⟨s, none, []⟩)
    ∧ (∀ (data : List (String × List CRec)) (df : List Row),
        env.cache = none → env.attempt1 = .response 200 (some data) →
        _parse_cenace_response data = .ok df →
        fetch_cenace env a b =
          .ok ⟨df.filter (fun p => decide (a ≤ p.timestamp) && decide (p.timestamp < b)),
               some (df.filter (fun p => decide (a ≤ p.timestamp) && decide (p.timestamp < b))),
               []⟩
        ∧ ∀ p ∈ df.filter (fun p => decide (a ≤ p.timestamp) && decide (p.timestamp < b)),
            a ≤ p.timestamp ∧ p.timestamp < b) := by
  constructor
  · intro s hcache
    simp only [fetch_cenace, hcache]
  · intro data df hc h1 hok
    constructor
    · simp only [fetch_cenace, hc, h1, hok]
      norm_num
    · intro p hp
      have := List.of_mem_filter hp
      simp only [Bool.and_eq_true, decide_eq_true_eq] at this
      exact this

/-- C7 witness: a concrete cache hit returned verbatim. -/
theorem fetch_cache_hit_and_window_witness :
    fetch_cenace ⟨some (some [⟨9999, some 1⟩]), .timeoutError, .timeoutError⟩ 0 1440 =
      .ok ⟨[⟨9999, some 1⟩], none, []⟩ :=
  (fetch_cache_hit_and_window ⟨some (some [⟨9999, some 1⟩]), .timeoutError, .timeoutError⟩
    0 1440).1 [⟨9999, some 1⟩] rfl

end Cenace
